import Mathlib

/-!
# Verification of the paqet carrier data plane

Shallow embedding of the paqet repository's core algorithms, with proofs of
the spec's testable properties.  Byte streams are modelled as `List Nat`
(each element a byte value), Go machine integers as `Nat`/`Int` with
explicit wrap-around where the source truncates, fallible operations as
`Except`/`Option`, and randomness as explicit parameters.
-/

namespace Paqet

/-! ## Byte-order helpers (`encoding/binary`, big endian) -/

/-- `binary.BigEndian.PutUint16`: the two bytes of `n` truncated to `uint16`. -/
def u16bytes (n : Nat) : List Nat := [n % 65536 / 256, n % 256]

/-- `binary.BigEndian.Uint16`: reassemble a 16-bit value from two bytes. -/
def u16val (b0 b1 : Nat) : Nat := b0 * 256 + b1

theorem u16bytes_val (n : Nat) (h : n < 65536) :
    u16val (n % 65536 / 256) (n % 256) = n := by
  simp only [u16val]
  omega

theorem u16val_lt (b0 b1 : Nat) (h0 : b0 < 256) (h1 : b1 < 256) :
    u16val b0 b1 < 65536 := by
  simp only [u16val]; omega

/-! ## TCP flag records (`conf.TCPF`, protocol `encodeTCPF`/`decodeTCPF`) -/

/-- `conf.TCPF`: the nine TCP flags carried in a flag report. -/
structure TCPF where
  FIN : Bool
  SYN : Bool
  RST : Bool
  PSH : Bool
  ACK : Bool
  URG : Bool
  ECE : Bool
  CWR : Bool
  NS : Bool
deriving DecidableEq, Repr

/-- `protocol.encodeTCPF`: pack the nine flags into a 16-bit bitmap
(bit 0 FIN, 1 SYN, 2 RST, 3 PSH, 4 ACK, 5 URG, 6 ECE, 7 CWR, 8 NS). -/
def encodeTCPF (f : TCPF) : Nat :=
  (if f.FIN then 1 <<< 0 else 0) |||
  (if f.SYN then 1 <<< 1 else 0) |||
  (if f.RST then 1 <<< 2 else 0) |||
  (if f.PSH then 1 <<< 3 else 0) |||
  (if f.ACK then 1 <<< 4 else 0) |||
  (if f.URG then 1 <<< 5 else 0) |||
  (if f.ECE then 1 <<< 6 else 0) |||
  (if f.CWR then 1 <<< 7 else 0) |||
  (if f.NS then 1 <<< 8 else 0)

/-- `protocol.decodeTCPF`: unpack a 16-bit bitmap into the nine flags. -/
def decodeTCPF (flags : Nat) : TCPF where
  FIN := flags &&& (1 <<< 0) != 0
  SYN := flags &&& (1 <<< 1) != 0
  RST := flags &&& (1 <<< 2) != 0
  PSH := flags &&& (1 <<< 3) != 0
  ACK := flags &&& (1 <<< 4) != 0
  URG := flags &&& (1 <<< 5) != 0
  CWR := flags &&& (1 <<< 7) != 0
  ECE := flags &&& (1 <<< 6) != 0
  NS := flags &&& (1 <<< 8) != 0

theorem decodeTCPF_encodeTCPF (f : TCPF) : decodeTCPF (encodeTCPF f) = f := by
  obtain ⟨a, b, c, d, e, u, v, w, x⟩ := f
  revert a b c d e u v w x
  decide

theorem encodeTCPF_lt (f : TCPF) : encodeTCPF f < 65536 := by
  obtain ⟨a, b, c, d, e, u, v, w, x⟩ := f
  revert a b c d e u v w x
  decide

/-! ## Addresses (`tnet.Addr`)

Modelled from the spec: package `tnet` is not under `src/`; the spec
describes an address as "a parsed host:port pair, normalized to a canonical
string ... Created by the parser; immutable".  We model an address by its
canonical byte string; `NewAddr` parses a byte string into an address and
`Addr.render` (Go `Addr.String()`) returns the canonical bytes. -/
structure Addr where
  canonical : List Nat
deriving DecidableEq, Repr

/-- Modelled from the spec: `tnet.NewAddr` (missing from `src/`) parses an
address string; on the canonical string of an address it recovers that
address. -/
def NewAddr (bs : List Nat) : Except String Addr := .ok ⟨bs⟩

/-- Modelled from the spec: `tnet.Addr.String()` returns the canonical
string (as bytes). -/
def Addr.render (a : Addr) : List Nat := a.canonical

/-! ## Protocol frames (`protocol.Proto`) -/

/-- Protocol type byte constants. -/
def PPING : Nat := 0x01
def PPONG : Nat := 0x02
def PTCPF : Nat := 0x03
def PTCP : Nat := 0x04
def PUDP : Nat := 0x05

/-- `protocol.Proto`: a protocol frame.  The Go zero value has `Addr = nil`
and `TCPF = nil`, modelled as `none` and `[]`. -/
structure Proto where
  typ : Nat
  addr : Option Addr
  tcpf : List TCPF
deriving DecidableEq, Repr

/-- The flag-reading loop of `Proto.Read` for the `PTCPF` case: read
`n` two-byte big-endian bitmaps, failing on short input (`io.ReadFull`). -/
def readTCPFs : Nat → List Nat → Except String (List TCPF × List Nat)
  | 0, rest => .ok ([], rest)
  | n + 1, b0 :: b1 :: rest =>
      match readTCPFs n rest with
      | .ok (fs, r) => .ok (decodeTCPF (u16val b0 b1) :: fs, r)
      | .error e => .error e
  | _ + 1, _ => .error "EOF"

/-- `protocol.Proto.Read`: binary decoding of one frame from a byte stream.
Returns the decoded frame and the remaining bytes, or an error on short
input, over-long address, over-long flag list, or unknown type. -/
def Proto.read (input : List Nat) : Except String (Proto × List Nat) :=
  match input with
  | [] => .error "EOF"
  | t :: rest =>
    if t = PTCP ∨ t = PUDP then
      match rest with
      | b0 :: b1 :: rest2 =>
          let addrLen := u16val b0 b1
          if addrLen > 512 then .error "address too long"
          else if rest2.length < addrLen then .error "EOF"
          else
            match NewAddr (rest2.take addrLen) with
            | .ok a => .ok ({ typ := t, addr := some a, tcpf := [] }, rest2.drop addrLen)
            | .error e => .error e
      | _ => .error "EOF"
    else if t = PTCPF then
      match rest with
      | c :: rest2 =>
          if c > 64 then .error "too many TCPF entries"
          else
            match readTCPFs c rest2 with
            | .ok (fs, r) => .ok ({ typ := t, addr := none, tcpf := fs }, r)
            | .error e => .error e
      | [] => .error "EOF"
    else if t = PPING ∨ t = PPONG then
      .ok ({ typ := t, addr := none, tcpf := [] }, rest)
    else .error "unknown protocol type"

/-- `protocol.Proto.Write`: binary encoding of one frame.  The type byte is
always emitted; `PTCP`/`PUDP` frames additionally carry a 2-byte big-endian
address length (truncated to `uint16`) and the address bytes, `PTCPF`
frames a count byte (truncated to `byte`) and the 2-byte flag bitmaps.
Any other type emits just the type byte and reports no error. -/
def Proto.write (p : Proto) : Except String (List Nat) :=
  if p.typ = PTCP ∨ p.typ = PUDP then
    match p.addr with
    | none => .error "address is required for TCP/UDP"
    | some a => .ok (p.typ :: (u16bytes a.render.length ++ a.render))
  else if p.typ = PTCPF then
    .ok (p.typ :: p.tcpf.length % 256 ::
          p.tcpf.flatMap (fun f => u16bytes (encodeTCPF f)))
  else .ok [p.typ]

/-- A well-formed frame in the sense of the spec: `PING`/`PONG` with empty
body, `PTCP`/`PUDP` with an address of at most 512 bytes, `PTCPF` with at
most 64 flag records; fields not used by the type are at their zero value. -/
def Proto.WellFormed (p : Proto) : Prop :=
  ((p.typ = PPING ∨ p.typ = PPONG) ∧ p.addr = none ∧ p.tcpf = []) ∨
  ((p.typ = PTCP ∨ p.typ = PUDP) ∧
    (∃ a, p.addr = some a ∧ a.render.length ≤ 512) ∧ p.tcpf = []) ∨
  (p.typ = PTCPF ∧ p.addr = none ∧ p.tcpf.length ≤ 64)

theorem readTCPFs_encode (fs : List TCPF) (rest : List Nat) :
    readTCPFs fs.length ((fs.flatMap fun f => u16bytes (encodeTCPF f)) ++ rest) =
      .ok (fs, rest) := by
  induction fs with
  | nil => simp [readTCPFs]
  | cons f fs ih =>
      have he := encodeTCPF_lt f
      rw [List.flatMap_cons, List.append_assoc]
      show readTCPFs (fs.length + 1)
        (encodeTCPF f % 65536 / 256 :: encodeTCPF f % 256 ::
          ((fs.flatMap fun f => u16bytes (encodeTCPF f)) ++ rest)) = _
      rw [Nat.mod_eq_of_lt he]
      have h1 : u16val (encodeTCPF f / 256) (encodeTCPF f % 256) = encodeTCPF f := by
        simp only [u16val]; omega
      simp only [readTCPFs, ih, h1, decodeTCPF_encodeTCPF]

/-- C1: For every well-formed protocol frame (PING or PONG with empty body,
TCP-dial or UDP-dial whose address string is at most 512 bytes, TCP-flag
report with at most 64 flag records), decoding with `Proto.Read` the bytes
produced by `Proto.Write` succeeds and yields a frame equal to the
original: `decode(encode(frame)) = frame`. -/
theorem proto_roundtrip (p : Proto) (h : p.WellFormed) :
    ∃ bs, Proto.write p = .ok bs ∧ Proto.read bs = .ok (p, []) := by
  obtain ⟨t, ad, fl⟩ := p
  rcases h with ⟨ht, ha, hf⟩ | ⟨ht, ⟨a, ha, hlen⟩, hf⟩ | ⟨ht, ha, hf⟩
  · -- PING / PONG
    simp only at ht ha hf
    subst ha; subst hf
    rcases ht with h1 | h1 <;> subst h1 <;> exact ⟨_, rfl, rfl⟩
  · -- PTCP / PUDP
    simp only at ht ha hf
    subst ha; subst hf
    have hlt : a.render.length < 65536 := by omega
    have hL := u16bytes_val a.render.length hlt
    rcases ht with h1 | h1 <;> subst h1 <;>
      refine ⟨_, rfl, ?_⟩ <;>
      · show Proto.read (_ :: (u16bytes a.render.length ++ a.render)) = _
        rw [show u16bytes a.render.length =
          [a.render.length % 65536 / 256, a.render.length % 256] from rfl]
        simp only [List.cons_append, List.nil_append, Proto.read, hL, NewAddr]
        rw [if_pos (by decide)]
        rw [if_neg (by omega), if_neg (by omega)]
        simp only [List.take_length, List.drop_length]
        rfl
  · -- PTCPF
    simp only at ht ha hf
    subst ht; subst ha
    have hc : fl.length % 256 = fl.length := Nat.mod_eq_of_lt (by omega)
    refine ⟨_, rfl, ?_⟩
    show Proto.read (PTCPF :: fl.length % 256 ::
      fl.flatMap (fun f => u16bytes (encodeTCPF f))) = _
    rw [hc, ← List.append_nil (fl.flatMap fun f => u16bytes (encodeTCPF f))]
    simp only [Proto.read]
    rw [if_neg (by decide)]
    simp only [if_true]
    rw [if_neg (by omega), readTCPFs_encode]

theorem proto_roundtrip_witness :
    ∃ bs, Proto.write ⟨PTCP, some ⟨[58, 49]⟩, []⟩ = .ok bs ∧
      Proto.read bs = .ok (⟨PTCP, some ⟨[58, 49]⟩, []⟩, []) :=
  proto_roundtrip ⟨PTCP, some ⟨[58, 49]⟩, []⟩
    (Or.inr (Or.inl ⟨Or.inl rfl, ⟨⟨[58, 49]⟩, rfl, by decide⟩, rfl⟩))

/-- C9: `Proto.Write` is total over the type byte: for a `Type` outside
`{0x01..0x05}` it writes only the single type byte and returns no error,
while `Proto.Read` rejects that same byte as an unknown protocol type. -/
theorem proto_write_unknown_type (p : Proto)
    (h : ¬(p.typ = PPING ∨ p.typ = PPONG ∨ p.typ = PTCPF ∨
           p.typ = PTCP ∨ p.typ = PUDP)) :
    Proto.write p = .ok [p.typ] ∧
    ∀ rest, ∃ e, Proto.read (p.typ :: rest) = .error e := by
  push_neg at h
  obtain ⟨h1, h2, h3, h4, h5⟩ := h
  constructor
  · simp only [Proto.write]
    rw [if_neg (by tauto), if_neg h3]
  · intro rest
    refine ⟨"unknown protocol type", ?_⟩
    simp only [Proto.read]
    rw [if_neg (by tauto), if_neg h3, if_neg (by tauto)]

theorem proto_write_unknown_type_witness :
    Proto.write ⟨0x06, none, []⟩ = .ok [0x06] ∧
      ∃ e, Proto.read [0x06] = .error e :=
  ⟨(proto_write_unknown_type ⟨0x06, none, []⟩ (by decide)).1,
   (proto_write_unknown_type ⟨0x06, none, []⟩ (by decide)).2 []⟩

/-! ## Payload padding and randomness (`socket.WrapPadding`,
`socket.UnwrapPadding`, `socket.cryptoRandIntn`)

`cryptoRandIntn` reads two random bytes; we pass its random `uint16` draw
as the explicit parameter `randU16` (reduced `% 65536` to the value the two
bytes can take).  The random padding bytes are drawn from the explicit byte
source `randByte`. -/

/-- `socket.cryptoRandIntn`: `0` for `n ≤ 0`, else the random `uint16`
reduced modulo `n`. -/
def cryptoRandIntn (randU16 : Nat) (n : Int) : Int :=
  if n ≤ 0 then 0 else ((randU16 % 65536 : Nat) : Int) % n

/-- The pad length chosen by `WrapPadding`: `cryptoRandIntn(padMax + 1)`. -/
def padLenOf (randU16 : Nat) (padMax : Int) : Nat :=
  (cryptoRandIntn randU16 (padMax + 1)).toNat

/-- `socket.WrapPadding`: `u16be(len(payload)) || payload || random pad`
with a random pad length in `[0, padMax]`. -/
def WrapPadding (randU16 : Nat) (randByte : Nat → Nat) (payload : List Nat)
    (padMax : Int) : List Nat :=
  u16bytes payload.length ++ payload ++
    (List.range (padLenOf randU16 padMax)).map randByte

/-- `socket.UnwrapPadding`: strip the 2-byte length prefix and the padding;
`none` when the input is shorter than 2 bytes or the declared length
exceeds the remaining bytes.  (The Go `origLen < 0` branch is unreachable:
`int(uint16)` is never negative.) -/
def UnwrapPadding (data : List Nat) : Option (List Nat) :=
  if data.length < 2 then none
  else
    let origLen := u16val (data.getD 0 0) (data.getD 1 0)
    if origLen > data.length - 2 then none
    else some ((data.drop 2).take origLen)

theorem cryptoRandIntn_nonneg (randU16 : Nat) (n : Int) :
    0 ≤ cryptoRandIntn randU16 n := by
  unfold cryptoRandIntn
  split
  · exact le_refl 0
  · next hn => exact Int.emod_nonneg _ (by omega)

/-- C2: For every payload `p` with `len(p) ≤ 65535` and every `padMax` in
`[1, 512]`, and for every value the random pad-length draw may take,
`UnwrapPadding (WrapPadding p padMax)` returns exactly `p`. -/
theorem padding_roundtrip (payload : List Nat) (padMax : Int)
    (randU16 : Nat) (randByte : Nat → Nat)
    (hlen : payload.length ≤ 65535) (hm1 : 1 ≤ padMax) (hm2 : padMax ≤ 512) :
    UnwrapPadding (WrapPadding randU16 randByte payload padMax) =
      some payload := by
  have hL := u16bytes_val payload.length (by omega)
  unfold WrapPadding UnwrapPadding u16bytes
  simp only [List.cons_append, List.nil_append, List.length_cons,
    List.length_append, List.getD_cons_zero, List.getD_cons_succ,
    List.drop_succ_cons, List.drop_zero, hL]
  rw [if_neg (by omega), if_neg (by omega)]
  rw [List.take_append_of_le_length (le_refl _), List.take_length]

theorem padding_roundtrip_witness :
    UnwrapPadding (WrapPadding 7 (fun _ => 0) [1, 2, 3] 64) = some [1, 2, 3] :=
  padding_roundtrip [1, 2, 3] 64 7 (fun _ => 0) (by decide) (by decide)
    (by decide)

/-- The declared length read by `UnwrapPadding` from the first two bytes. -/
def declaredLen (data : List Nat) : Nat :=
  u16val (data.getD 0 0) (data.getD 1 0)

/-- C3: `UnwrapPadding b` returns `none` whenever its input is truncated:
when `len(b) < 2`, or when the declared length `u16be(b[0..2])` exceeds
`len(b) - 2`; it never returns a slice extending past the input bytes. -/
theorem unwrap_padding_truncation (data : List Nat) :
    (data.length < 2 → UnwrapPadding data = none) ∧
    (2 ≤ data.length → declaredLen data > data.length - 2 →
      UnwrapPadding data = none) ∧
    (∀ out, UnwrapPadding data = some out →
      out = (data.drop 2).take (declaredLen data) ∧
      out.length + 2 ≤ data.length) := by
  refine ⟨?_, ?_, ?_⟩
  · intro h
    unfold UnwrapPadding
    rw [if_pos h]
  · intro _ h2
    unfold UnwrapPadding declaredLen at *
    rw [if_neg (by omega), if_pos h2]
  · intro out h
    unfold UnwrapPadding declaredLen at *
    by_cases h1 : data.length < 2
    · rw [if_pos h1] at h; exact absurd h (by simp)
    · rw [if_neg h1] at h
      by_cases h2 : u16val (data.getD 0 0) (data.getD 1 0) > data.length - 2
      · rw [if_pos h2] at h; exact absurd h (by simp)
      · rw [if_neg h2] at h
        simp only [Option.some.injEq] at h
        subst h
        refine ⟨rfl, ?_⟩
        simp only [List.length_take, List.length_drop]
        omega

theorem unwrap_padding_truncation_witness :
    UnwrapPadding ([] : List Nat) = none ∧
    UnwrapPadding [0, 5, 1] = none ∧
    ([9] = (([0, 1, 9, 8].drop 2).take (declaredLen [0, 1, 9, 8])) ∧
      List.length [9] + 2 ≤ List.length [0, 1, 9, 8]) :=
  ⟨(unwrap_padding_truncation []).1 (by decide),
   (unwrap_padding_truncation [0, 5, 1]).2.1 (by decide) (by decide),
   (unwrap_padding_truncation [0, 1, 9, 8]).2.2 [9] (by decide)⟩

/-- C10: `cryptoRandIntn n` returns 0 for every `n ≤ 0` and a value in
`[0, n)` for every `n` in `[1, 65536]`; consequently `WrapPadding` is total
and its pad length is always in `[0, padMax]` (and equals 0 when `padMax`
is 0 or negative). -/
theorem crypto_rand_intn_bounds (randU16 : Nat) (n : Int) :
    (n ≤ 0 → cryptoRandIntn randU16 n = 0) ∧
    (1 ≤ n → n ≤ 65536 →
      0 ≤ cryptoRandIntn randU16 n ∧ cryptoRandIntn randU16 n < n) ∧
    (∀ padMax : Int, ∀ randByte : Nat → Nat, ∀ payload : List Nat,
      (WrapPadding randU16 randByte payload padMax).length =
        2 + payload.length + padLenOf randU16 padMax ∧
      (padMax ≤ 0 → padLenOf randU16 padMax = 0) ∧
      (0 ≤ padMax → (padLenOf randU16 padMax : Int) ≤ padMax)) := by
  refine ⟨?_, ?_, ?_⟩
  · intro h
    unfold cryptoRandIntn
    rw [if_pos h]
  · intro h1 _
    refine ⟨cryptoRandIntn_nonneg randU16 n, ?_⟩
    unfold cryptoRandIntn
    rw [if_neg (by omega)]
    exact Int.emod_lt_of_pos _ (by omega)
  · intro padMax randByte payload
    refine ⟨?_, ?_, ?_⟩
    · simp only [WrapPadding, u16bytes, List.cons_append, List.nil_append,
        List.length_append, List.length_cons, List.length_map, List.length_range]
      omega
    · intro h
      unfold padLenOf cryptoRandIntn
      by_cases h0 : padMax + 1 ≤ 0
      · rw [if_pos h0]; rfl
      · rw [if_neg h0]
        have h1 : padMax + 1 = 1 := by omega
        rw [h1, Int.emod_one]
        rfl
    · intro h
      have h1 : cryptoRandIntn randU16 (padMax + 1) < padMax + 1 := by
        unfold cryptoRandIntn
        rw [if_neg (by omega)]
        exact Int.emod_lt_of_pos _ (by omega)
      have h2 := cryptoRandIntn_nonneg randU16 (padMax + 1)
      unfold padLenOf
      omega

theorem crypto_rand_intn_bounds_witness :
    cryptoRandIntn 300 (-2) = 0 ∧
    (0 ≤ cryptoRandIntn 300 7 ∧ cryptoRandIntn 300 7 < 7) ∧
    ((0 : Int) ≤ (-3 : Int) → (padLenOf 300 (-3) : Int) ≤ (-3 : Int)) :=
  ⟨(crypto_rand_intn_bounds 300 (-2)).1 (by decide),
   (crypto_rand_intn_bounds 300 7).2.1 (by decide) (by decide),
   ((crypto_rand_intn_bounds 300 (-3)).2.2 (-3) (fun _ => 0) []).2.2⟩

/-! ## Client health-check ticker (`client.Client.ticker`)

Per-slot transition of one tick, common to the ticker variants in the
repository that use a failure counter (`maxHealthCheckFailures` is 3 or 4
depending on the variant).  The session type `S` is abstract; the ping
outcome and the result of `tc.createConn()` are explicit inputs. -/

/-- One pool slot: a session pointer (possibly nil) and its consecutive
ping-failure counter. -/
structure Slot (S : Type) where
  conn : Option S
  fails : Nat
deriving DecidableEq, Repr

/-- One health-check tick on one slot.  Returns the updated slot and
whether the session was replaced.  Mirrors the ticker body: nil conn is
skipped; a successful ping resets the counter; a failed ping increments
it, and at the threshold the old session is closed and `createConn` is
tried — on success the new session is installed with the counter reset,
on failure the slot is left as is (degraded) for the next tick. -/
def tickSlot {S : Type} (maxF : Nat) (pingOK : Bool) (created : Option S)
    (sl : Slot S) : Slot S × Bool :=
  match sl.conn with
  | none => (sl, false)
  | some c =>
    if pingOK then ({ conn := some c, fails := 0 }, false)
    else
      let f := sl.fails + 1
      if f < maxF then ({ conn := some c, fails := f }, false)
      else
        match created with
        | some n => ({ conn := some n, fails := 0 }, true)
        | none => ({ conn := some c, fails := f }, false)

/-- Run a sequence of ticks on one slot, counting session replacements.
Each list element is one tick's (ping outcome, createConn result). -/
def runTicks {S : Type} (maxF : Nat) :
    List (Bool × Option S) → Slot S → Slot S × Nat
  | [], sl => (sl, 0)
  | (p, cr) :: ts, sl =>
      let step := tickSlot maxF p cr sl
      let rest := runTicks maxF ts step.1
      (rest.1, (if step.2 then 1 else 0) + rest.2)

/-- C4: In the client health-check ticker, a slot whose consecutive
ping-failure counter reaches `maxHealthCheckFailures` (3 or 4) has its
session closed and replaced exactly once, with the counter reset to 0 on
successful replacement and the slot left degraded for the next tick when
replacement fails; any successful ping resets the counter to 0. -/
theorem ticker_health_check {S : Type} (maxF : Nat) (c n : S)
    (cr : Option S) (f : Nat) :
    (tickSlot maxF true cr ⟨some c, f⟩ = (⟨some c, 0⟩, false)) ∧
    (f + 1 < maxF →
      tickSlot maxF false cr ⟨some c, f⟩ = (⟨some c, f + 1⟩, false)) ∧
    (maxF ≤ f + 1 →
      tickSlot maxF false (some n) ⟨some c, f⟩ = (⟨some n, 0⟩, true)) ∧
    (maxF ≤ f + 1 →
      tickSlot maxF false none ⟨some c, f⟩ = (⟨some c, f + 1⟩, false)) ∧
    (tickSlot maxF true cr ⟨none, f⟩ = (⟨none, f⟩, false)) ∧
    ((maxF = 3 ∨ maxF = 4) →
      runTicks maxF (List.replicate maxF (false, some n)) ⟨some c, 0⟩ =
        (⟨some n, 0⟩, 1)) := by
  refine ⟨rfl, ?_, ?_, ?_, rfl, ?_⟩
  · intro h
    simp only [tickSlot, if_neg (Bool.false_ne_true), if_pos h]
  · intro h
    simp only [tickSlot, if_neg (Bool.false_ne_true), if_neg (by omega : ¬f + 1 < maxF)]
  · intro h
    simp only [tickSlot, if_neg (Bool.false_ne_true), if_neg (by omega : ¬f + 1 < maxF)]
  · rintro (h | h) <;> subst h <;> rfl

theorem ticker_health_check_witness :
    (tickSlot 3 true none (⟨some 0, 2⟩ : Slot Nat) = (⟨some 0, 0⟩, false)) ∧
    (tickSlot 3 false none (⟨some 0, 0⟩ : Slot Nat) = (⟨some 0, 1⟩, false)) ∧
    (tickSlot 3 false (some 1) (⟨some 0, 2⟩ : Slot Nat) = (⟨some 1, 0⟩, true)) ∧
    (tickSlot 3 false none (⟨some 0, 2⟩ : Slot Nat) = (⟨some 0, 3⟩, false)) ∧
    (runTicks 3 (List.replicate 3 (false, some 1)) (⟨some 0, 0⟩ : Slot Nat) =
      (⟨some 1, 0⟩, 1)) :=
  ⟨(ticker_health_check 3 0 1 none 2).1,
   (ticker_health_check 3 0 1 none 0).2.1 (by decide),
   (ticker_health_check 3 0 1 none 2).2.2.1 (by decide),
   (ticker_health_check 3 0 1 none 2).2.2.2.1 (by decide),
   (ticker_health_check 3 0 1 none 0).2.2.2.2.2 (Or.inl rfl)⟩

/-! ## Raw-capture receive path (`socket.RecvHandle.Read`)

The captured frame is a byte list; `byteAt` is Go's indexing (only used
under the length guards the code performs first).  The pcap read itself is
modelled as an `Except` input to the wrapper. -/

/-- Indexing into a frame (`data[i]`); defaults to 0 off the end, but every
use is guarded by a length check first, as in the source. -/
def byteAt (data : List Nat) (i : Nat) : Nat := data.getD i 0

/-- The synthesized source address returned by `RecvHandle.Read`:
source IP bytes and TCP source port. -/
structure RAddr where
  ip : List Nat
  port : Nat
deriving DecidableEq, Repr

/-- TCP tail of the parse: header-length checks, source port, and the
payload slice.  `offset`/`ipHeaderLen` are as computed by the caller. -/
def recvParseTCP (data : List Nat) (offset ipHeaderLen : Nat)
    (srcIP : List Nat) : Option (List Nat × RAddr) :=
  let tcpStart := offset + ipHeaderLen
  if data.length < tcpStart + 20 then none
  else
    let port := u16val (byteAt data tcpStart) (byteAt data (tcpStart + 1))
    let tcpHeaderLen := (byteAt data (tcpStart + 12) / 16) * 4
    if tcpHeaderLen < 20 ∨ data.length < tcpStart + tcpHeaderLen then none
    else
      let payloadStart := tcpStart + tcpHeaderLen
      if payloadStart ≥ data.length then none
      else some (data.drop payloadStart, ⟨srcIP, port⟩)

/-- IP dispatch of the parse: EtherType switch, IP header validation and
source-IP extraction (IPv4 `IHL×4 ≥ 20`, IPv6 fixed 40 bytes). -/
def recvParseIP (data : List Nat) (etherType offset : Nat) :
    Option (List Nat × RAddr) :=
  if etherType = 0x0800 then
    if data.length < offset + 20 then none
    else
      let ipHeaderLen := byteAt data offset % 16 * 4
      if ipHeaderLen < 20 ∨ data.length < offset + ipHeaderLen then none
      else recvParseTCP data offset ipHeaderLen
        ((data.drop (offset + 12)).take 4)
  else if etherType = 0x86DD then
    if data.length < offset + 40 then none
    else recvParseTCP data offset 40 ((data.drop (offset + 8)).take 16)
  else none

/-- The frame parser inside `socket.RecvHandle.Read`: Ethernet header
check, single optional 802.1Q VLAN tag, then IP/TCP parsing.  `none` means
"no data" (malformed or payload-less frame). -/
def recvParse (data : List Nat) : Option (List Nat × RAddr) :=
  if data.length < 14 then none
  else
    let et0 := u16val (byteAt data 12) (byteAt data 13)
    if et0 = 0x8100 then
      if data.length < 18 then none
      else recvParseIP data (u16val (byteAt data 16) (byteAt data 17)) 18
    else recvParseIP data et0 14

/-- `socket.RecvHandle.Read`: a failed pcap read propagates its error;
a successful read parses the frame and never errors. -/
def RecvRead (pcapResult : Except String (List Nat)) :
    Except String (Option (List Nat × RAddr)) :=
  match pcapResult with
  | .error e => .error e
  | .ok data => .ok (recvParse data)

/-- Layer-2 payload offset: 18 after one VLAN tag, else 14. -/
def l2Offset (data : List Nat) : Nat :=
  if u16val (byteAt data 12) (byteAt data 13) = 0x8100 then 18 else 14

/-- Effective EtherType after skipping at most one VLAN tag. -/
def l2EtherType (data : List Nat) : Nat :=
  if u16val (byteAt data 12) (byteAt data 13) = 0x8100 then
    u16val (byteAt data 16) (byteAt data 17)
  else u16val (byteAt data 12) (byteAt data 13)

/-- IP header length as the code computes it: IPv4 `IHL×4`, IPv6 40. -/
def ipHdrLenOf (data : List Nat) : Nat :=
  if l2EtherType data = 0x0800 then byteAt data (l2Offset data) % 16 * 4
  else 40

/-- Start of the TCP header within the frame. -/
def tcpStartOf (data : List Nat) : Nat := l2Offset data + ipHdrLenOf data

/-- TCP header length: data-offset nibble × 4. -/
def tcpHdrLenOf (data : List Nat) : Nat :=
  byteAt data (tcpStartOf data + 12) / 16 * 4

/-- Start of the TCP payload within the frame. -/
def payloadStartOf (data : List Nat) : Nat :=
  tcpStartOf data + tcpHdrLenOf data

/-- The header validations of the claim, stated independently of the
parser: Ethernet header ≥ 14 bytes, at most one 802.1Q VLAN tag (with the
tagged header fully present), EtherType IPv4 or IPv6, IPv4 `IHL×4 ≥ 20` or
IPv6 fixed 40 bytes within the frame, TCP data-offset×4 ≥ 20 within the
frame. -/
def frameValid (data : List Nat) : Bool :=
  decide (14 ≤ data.length) &&
  decide (l2Offset data ≤ data.length) &&
  ((decide (l2EtherType data = 0x0800) &&
      decide (20 ≤ ipHdrLenOf data) &&
      decide (l2Offset data + ipHdrLenOf data ≤ data.length)) ||
   (decide (l2EtherType data = 0x86DD) &&
      decide (l2Offset data + 40 ≤ data.length))) &&
  decide (20 ≤ tcpHdrLenOf data) &&
  decide (tcpStartOf data + tcpHdrLenOf data ≤ data.length)

theorem recvParseTCP_some (data : List Nat) (offset ipHeaderLen : Nat)
    (srcIP pl : List Nat) (a : RAddr)
    (h : recvParseTCP data offset ipHeaderLen srcIP = some (pl, a)) :
    offset + ipHeaderLen + 20 ≤ data.length ∧
    20 ≤ byteAt data (offset + ipHeaderLen + 12) / 16 * 4 ∧
    offset + ipHeaderLen + byteAt data (offset + ipHeaderLen + 12) / 16 * 4 <
      data.length ∧
    pl = data.drop
      (offset + ipHeaderLen + byteAt data (offset + ipHeaderLen + 12) / 16 * 4) := by
  unfold recvParseTCP at h
  by_cases h1 : data.length < offset + ipHeaderLen + 20
  · rw [if_pos h1] at h; exact absurd h (by simp)
  · rw [if_neg h1] at h
    by_cases h2 : byteAt data (offset + ipHeaderLen + 12) / 16 * 4 < 20 ∨
        data.length < offset + ipHeaderLen +
          byteAt data (offset + ipHeaderLen + 12) / 16 * 4
    · rw [if_pos h2] at h; exact absurd h (by simp)
    · rw [if_neg h2] at h
      push_neg at h2
      by_cases h3 : offset + ipHeaderLen +
          byteAt data (offset + ipHeaderLen + 12) / 16 * 4 ≥ data.length
      · rw [if_pos h3] at h; exact absurd h (by simp)
      · rw [if_neg h3] at h
        simp only [Option.some.injEq, Prod.mk.injEq] at h
        exact ⟨by omega, h2.1, by omega, h.1.symm⟩

theorem recvParseIP_some (data : List Nat) (et off : Nat)
    (pl : List Nat) (a : RAddr)
    (h : recvParseIP data et off = some (pl, a)) :
    ∃ ipl,
      ((et = 0x0800 ∧ ipl = byteAt data off % 16 * 4 ∧ 20 ≤ ipl) ∨
        (et = 0x86DD ∧ ipl = 40)) ∧
      off + ipl ≤ data.length ∧
      20 ≤ byteAt data (off + ipl + 12) / 16 * 4 ∧
      off + ipl + byteAt data (off + ipl + 12) / 16 * 4 < data.length ∧
      pl = data.drop (off + ipl + byteAt data (off + ipl + 12) / 16 * 4) := by
  unfold recvParseIP at h
  by_cases h4 : et = 0x0800
  · rw [if_pos h4] at h
    by_cases h1 : data.length < off + 20
    · rw [if_pos h1] at h; exact absurd h (by simp)
    · rw [if_neg h1] at h
      by_cases h2 : byteAt data off % 16 * 4 < 20 ∨
          data.length < off + byteAt data off % 16 * 4
      · rw [if_pos h2] at h; exact absurd h (by simp)
      · rw [if_neg h2] at h
        push_neg at h2
        obtain ⟨ha, hb, hc, hd⟩ := recvParseTCP_some _ _ _ _ _ _ h
        exact ⟨byteAt data off % 16 * 4,
          Or.inl ⟨h4, rfl, h2.1⟩, by omega, hb, hc, hd⟩
  · rw [if_neg h4] at h
    by_cases h6 : et = 0x86DD
    · rw [if_pos h6] at h
      by_cases h1 : data.length < off + 40
      · rw [if_pos h1] at h; exact absurd h (by simp)
      · rw [if_neg h1] at h
        obtain ⟨ha, hb, hc, hd⟩ := recvParseTCP_some _ _ _ _ _ _ h
        exact ⟨40, Or.inr ⟨h6, rfl⟩, by omega, hb, hc, hd⟩
    · rw [if_neg h6] at h
      exact absurd h (by simp)

theorem recv_frame_valid_aux (data : List Nat) (pl : List Nat) (a : RAddr)
    (hlen : 14 ≤ data.length)
    (hoffle : l2Offset data ≤ data.length)
    (hIP : recvParseIP data (l2EtherType data) (l2Offset data) = some (pl, a)) :
    frameValid data = true ∧ pl = data.drop (payloadStartOf data) ∧
      payloadStartOf data < data.length ∧ pl ≠ [] := by
  obtain ⟨ipl, hcase, hoff, htcp20, hlt, hpl⟩ := recvParseIP_some _ _ _ _ _ hIP
  have hIplEq : ipHdrLenOf data = ipl := by
    unfold ipHdrLenOf
    rcases hcase with ⟨h4, hipl, _⟩ | ⟨h6, hipl⟩
    · rw [if_pos h4]; exact hipl.symm
    · rw [if_neg (by rw [h6]; decide)]; exact hipl.symm
  have hTS : tcpStartOf data = l2Offset data + ipl := by
    unfold tcpStartOf
    rw [hIplEq]
  have hTH : tcpHdrLenOf data =
      byteAt data (l2Offset data + ipl + 12) / 16 * 4 := by
    unfold tcpHdrLenOf
    rw [hTS]
  have hPS : payloadStartOf data =
      l2Offset data + ipl + byteAt data (l2Offset data + ipl + 12) / 16 * 4 := by
    unfold payloadStartOf
    rw [hTS, hTH]
  refine ⟨?_, ?_, ?_, ?_⟩
  · simp only [frameValid, Bool.and_eq_true, Bool.or_eq_true, decide_eq_true_eq]
    refine ⟨⟨⟨⟨hlen, hoffle⟩, ?_⟩, ?_⟩, ?_⟩
    · rcases hcase with ⟨h4, hipl, h20⟩ | ⟨h6, hipl⟩
      · exact Or.inl ⟨⟨h4, by omega⟩, by omega⟩
      · exact Or.inr ⟨h6, by omega⟩
    · rw [hTH]; exact htcp20
    · rw [hTS, hTH]; omega
  · rw [hPS]; exact hpl
  · rw [hPS]; omega
  · rw [hpl]
    intro hnil
    have := List.drop_eq_nil_iff.mp hnil
    omega

/-- C5: Whenever `RecvHandle.Read` returns a non-nil payload, the captured
frame passed every header validation and the returned payload slice lies
within the frame bounds; every malformed or payload-less packet yields no
data and no error, and `Read` returns an error only when the underlying
pcap read itself fails. -/
theorem recv_read_safety :
    (∀ e, RecvRead (.error e) = .error e) ∧
    (∀ data, RecvRead (.ok data) = .ok (recvParse data)) ∧
    (∀ data pl a, recvParse data = some (pl, a) →
      frameValid data = true ∧ pl = data.drop (payloadStartOf data) ∧
        payloadStartOf data < data.length ∧ pl ≠ []) := by
  refine ⟨fun e => rfl, fun data => rfl, fun data pl a h => ?_⟩
  unfold recvParse at h
  by_cases hlen : data.length < 14
  · rw [if_pos hlen] at h; exact absurd h (by simp)
  · rw [if_neg hlen] at h
    by_cases hv : u16val (byteAt data 12) (byteAt data 13) = 0x8100
    · rw [if_pos hv] at h
      by_cases h18 : data.length < 18
      · rw [if_pos h18] at h; exact absurd h (by simp)
      · rw [if_neg h18] at h
        have hOff : l2Offset data = 18 := by unfold l2Offset; rw [if_pos hv]
        have hEt : l2EtherType data = u16val (byteAt data 16) (byteAt data 17) := by
          unfold l2EtherType; rw [if_pos hv]
        exact recv_frame_valid_aux data pl a (by omega) (by omega)
          (by rw [hEt, hOff]; exact h)
    · rw [if_neg hv] at h
      have hOff : l2Offset data = 14 := by unfold l2Offset; rw [if_neg hv]
      have hEt : l2EtherType data = u16val (byteAt data 12) (byteAt data 13) := by
        unfold l2EtherType; rw [if_neg hv]
      exact recv_frame_valid_aux data pl a (by omega) (by omega)
        (by rw [hEt, hOff]; exact h)

/-- A concrete valid Ethernet + IPv4 + TCP frame with a 1-byte payload. -/
def testFrame : List Nat :=
  [0, 0, 0, 0, 0, 0, 0, 0, 0, 0, 0, 0, 0x08, 0x00,
   0x45, 0, 0, 41, 0, 0, 0, 0, 64, 6, 0, 0, 10, 0, 0, 1, 10, 0, 0, 2,
   0x1F, 0x90, 0, 80, 0, 0, 0, 0, 0, 0, 0, 0, 0x50, 0, 0, 0, 0, 0, 0, 0,
   0xAB]

theorem recv_read_safety_witness :
    frameValid testFrame = true ∧
      [0xAB] = testFrame.drop (payloadStartOf testFrame) ∧
      payloadStartOf testFrame < testFrame.length ∧ ([0xAB] : List Nat) ≠ [] :=
  recv_read_safety.2.2 testFrame [0xAB] ⟨[10, 0, 0, 1], 8080⟩ (by decide)

/-! ## DPI evasion: fake packet injection (`socket.dpiEvasion`,
`socket.SendHandle.writeFakePacket`)

The per-destination counter map (`sync.Map` of atomic counters keyed by
`hash(IP, port)`) is modelled as a function from an abstract key type to
the counter value; `shouldSendFake` returns its decision and the updated
map.  Packet serialization (gopacket, external) is abstracted to the
fields the claim speaks about: the IPv4 TTL / IPv6 hop limit assigned from
`FakeTTL` and the random payload length; send outcomes are an explicit
input that the best-effort loop ignores. -/

/-- `conf.DPI`: the DPI-evasion settings. -/
structure DPI where
  FakeEnabled : Bool
  FakeTTL : Nat
  FakeCount : Int
  FakeCutoff : Int
  PadEnabled : Bool
  PadMax : Int
deriving DecidableEq, Repr

/-- `dpiEvasion.shouldSendFake`: when fakes are enabled, increment the
per-destination counter and send while it has not passed `FakeCutoff`. -/
def shouldSendFake {K : Type} [DecidableEq K] (cfg : DPI) (st : K → Int)
    (k : K) : Bool × (K → Int) :=
  if cfg.FakeEnabled = false then (false, st)
  else
    let c := st k + 1
    (decide (c ≤ cfg.FakeCutoff), fun k2 => if k2 = k then c else st k2)

/-- Iterate `shouldSendFake` for `n` real packets to destination `k`,
collecting the decisions. -/
def shouldCalls {K : Type} [DecidableEq K] (cfg : DPI) (k : K) :
    Nat → (K → Int) → List Bool × (K → Int)
  | 0, st => ([], st)
  | n + 1, st =>
      let step := shouldSendFake cfg st k
      let rest := shouldCalls cfg k n step.2
      (step.1 :: rest.1, rest.2)

/-- The abstract content of one fake packet: the decoy TTL (IPv4 TTL or
IPv6 hop limit) and the random payload length. -/
structure FakePacket where
  ttl : Nat
  payloadLen : Nat
  isIPv4 : Bool
deriving DecidableEq, Repr

/-- The fake payload length drawn in `writeFakePacket`:
`24 + cryptoRandIntn(56)`. -/
def fakeLen (randU16 : Nat) : Nat := 24 + (cryptoRandIntn randU16 56).toNat

/-- `SendHandle.writeFakePacket`, abstracted to the claim's fields: the
decoy reuses the real flow's addressing and sets `FakeTTL` as IPv4 TTL or
IPv6 hop limit with a random 24..79-byte payload. -/
def writeFakePacket (cfg : DPI) (dstIsV4 : Bool) (randU16 : Nat) :
    FakePacket :=
  { ttl := cfg.FakeTTL, payloadLen := fakeLen randU16, isIPv4 := dstIsV4 }

/-- `SendHandle.sendFakePackets`: emit `FakeCount` decoys, discarding each
send's outcome (`sendOK` is never consulted). -/
def sendFakePackets (cfg : DPI) (dstIsV4 : Bool) (rands : Nat → Nat)
    (sendOK : Nat → Bool) : List FakePacket :=
  (List.range cfg.FakeCount.toNat).map fun i =>
    writeFakePacket cfg dstIsV4 (rands i)

theorem shouldCalls_enabled {K : Type} [DecidableEq K] (cfg : DPI) (k : K)
    (he : cfg.FakeEnabled = true) :
    ∀ n (st : K → Int),
      (shouldCalls cfg k n st).1 =
        (List.range n).map
          (fun i : Nat => decide (st k + (i : Int) + 1 ≤ cfg.FakeCutoff)) ∧
      (shouldCalls cfg k n st).2 k = st k + (n : Int) ∧
      (∀ k2, k2 ≠ k → (shouldCalls cfg k n st).2 k2 = st k2) := by
  intro n
  induction n with
  | zero =>
      intro st
      refine ⟨rfl, by simp [shouldCalls], fun k2 _ => rfl⟩
  | succ n ih =>
      intro st
      have hstep : shouldSendFake cfg st k =
          (decide (st k + 1 ≤ cfg.FakeCutoff),
            fun k2 => if k2 = k then st k + 1 else st k2) := by
        unfold shouldSendFake
        rw [if_neg (by simp [he])]
      obtain ⟨ih1, ih2, ih3⟩ := ih (fun k2 => if k2 = k then st k + 1 else st k2)
      have hkk : (if k = k then st k + 1 else st k) = st k + 1 := if_pos rfl
      rw [hkk] at ih1 ih2
      refine ⟨?_, ?_, ?_⟩
      · show (shouldSendFake cfg st k).1 ::
          (shouldCalls cfg k n (shouldSendFake cfg st k).2).1 = _
        rw [hstep]
        rw [ih1, List.range_succ_eq_map, List.map_cons, List.map_map]
        congr 1
        · rw [decide_eq_decide]
          push_cast
          omega
        · apply List.map_congr_left
          intro i _
          simp only [Function.comp_apply, decide_eq_decide]
          push_cast
          omega
      · show (shouldCalls cfg k n (shouldSendFake cfg st k).2).2 k = _
        rw [hstep, ih2]
        push_cast
        omega
      · intro k2 hk2
        show (shouldCalls cfg k n (shouldSendFake cfg st k).2).2 k2 = _
        rw [hstep, ih3 k2 hk2]
        rw [if_neg hk2]

theorem shouldCalls_disabled {K : Type} [DecidableEq K] (cfg : DPI) (k : K)
    (hd : cfg.FakeEnabled = false) :
    ∀ n (st : K → Int), shouldCalls cfg k n st = (List.replicate n false, st) := by
  intro n
  induction n with
  | zero => intro st; rfl
  | succ n ih =>
      intro st
      have hstep : shouldSendFake cfg st k = (false, st) := by
        unfold shouldSendFake
        rw [if_pos hd]
      show ((shouldSendFake cfg st k).1 ::
          (shouldCalls cfg k n (shouldSendFake cfg st k).2).1,
        (shouldCalls cfg k n (shouldSendFake cfg st k).2).2) = _
      rw [hstep, ih st]
      rfl

/-- C6: When fake-packet injection is enabled, for each of the first
`FakeCutoff` real packets to a given destination (counted per destination)
the sender emits `FakeCount` decoy packets, each carrying a random payload
of 24..80 bytes (i.e. in `[24, 80)`) and using `FakeTTL` as the IPv4 TTL
or IPv6 hop limit; fake-packet send failures are ignored and never block
real traffic. -/
theorem fake_packet_injection {K : Type} [DecidableEq K] (cfg : DPI)
    (k : K) (n : Nat) :
    (cfg.FakeEnabled = true →
      (shouldCalls cfg k n (fun _ => 0)).1 =
        (List.range n).map
          (fun i : Nat => decide ((i : Int) + 1 ≤ cfg.FakeCutoff))) ∧
    (cfg.FakeEnabled = false →
      (shouldCalls cfg k n (fun _ => 0)).1 = List.replicate n false) ∧
    (cfg.FakeEnabled = true →
      ∀ k2, k2 ≠ k → (shouldCalls cfg k n (fun _ => 0)).2 k2 = 0) ∧
    (∀ randU16, 24 ≤ fakeLen randU16 ∧ fakeLen randU16 < 80) ∧
    (∀ v4 randU16, (writeFakePacket cfg v4 randU16).ttl = cfg.FakeTTL) ∧
    (∀ v4 rands sendOK1 sendOK2,
      sendFakePackets cfg v4 rands sendOK1 =
        sendFakePackets cfg v4 rands sendOK2 ∧
      (sendFakePackets cfg v4 rands sendOK1).length = cfg.FakeCount.toNat) := by
  refine ⟨?_, ?_, ?_, ?_, fun _ _ => rfl, fun v4 rands s1 s2 => ⟨rfl, ?_⟩⟩
  · intro he
    obtain ⟨h1, _, _⟩ := shouldCalls_enabled cfg k he n (fun _ => 0)
    rw [h1]
    apply List.map_congr_left
    intro i _
    rw [decide_eq_decide]
    omega
  · intro hd
    rw [shouldCalls_disabled cfg k hd n (fun _ => 0)]
  · intro he k2 hk2
    exact (shouldCalls_enabled cfg k he n (fun _ => 0)).2.2 k2 hk2
  · intro randU16
    have h : cryptoRandIntn randU16 56 = ((randU16 % 65536 : Nat) : Int) % 56 := by
      unfold cryptoRandIntn
      rw [if_neg (by omega)]
    unfold fakeLen
    rw [h]
    have h2 : (0 : Int) ≤ ((randU16 % 65536 : Nat) : Int) % 56 :=
      Int.emod_nonneg _ (by norm_num)
    have h3 : ((randU16 % 65536 : Nat) : Int) % 56 < 56 :=
      Int.emod_lt_of_pos _ (by omega)
    omega
  · simp [sendFakePackets]

theorem fake_packet_injection_witness :
    ((shouldCalls ⟨true, 4, 1, 5, false, 64⟩ (0 : Nat) 7 (fun _ => 0)).1 =
      (List.range 7).map (fun i : Nat => decide ((i : Int) + 1 ≤ 5))) ∧
    (∀ k2, k2 ≠ (0 : Nat) →
      (shouldCalls ⟨true, 4, 1, 5, false, 64⟩ (0 : Nat) 7 (fun _ => 0)).2 k2 = 0) :=
  ⟨(fake_packet_injection ⟨true, 4, 1, 5, false, 64⟩ (0 : Nat) 7).1 rfl,
   (fake_packet_injection ⟨true, 4, 1, 5, false, 64⟩ (0 : Nat) 7).2.2.1 rfl⟩

/-! ## Stream multiplexer configuration (`kcp.smuxConf`) -/

/-- `conf.KCP`: the fields `smuxConf` consults (the profile `Mode` and the
manual KCP tuning fields are carried for completeness; `smuxConf` reads
only `Smuxbuf` and `Streambuf`). -/
structure KCPConf where
  Mode : String
  NoDelay : Int
  Interval : Int
  Resend : Int
  NoCongestion : Int
  WDelay : Bool
  AckNoDelay : Bool
  Sndwnd : Int
  Rcvwnd : Int
  MTU : Int
  Smuxbuf : Int
  Streambuf : Int
deriving DecidableEq, Repr

/-- The smux configuration fields the code touches or the claim mentions.
Keep-alive durations are in seconds. -/
structure SmuxConfig where
  Version : Nat
  KeepAliveIntervalSec : Nat
  KeepAliveTimeoutSec : Nat
  MaxFrameSize : Nat
  MaxReceiveBuffer : Int
  MaxStreamBuffer : Int
deriving DecidableEq, Repr

/-- The external `smux.DefaultConfig()` (xtaci/smux), modelled from that
library's documented defaults; every field asserted below is overwritten
by `smuxConf`, so nothing depends on these values. -/
def smuxDefaultConfig : SmuxConfig where
  Version := 1
  KeepAliveIntervalSec := 10
  KeepAliveTimeoutSec := 30
  MaxFrameSize := 32768
  MaxReceiveBuffer := 4194304
  MaxStreamBuffer := 65536

/-- `kcp.smuxConf`: version 2, 10 s keep-alive interval, 40 s keep-alive
timeout, 8 KiB frame size, and receive/stream buffers taken from the
config when nonzero, else 4 MiB / 2 MiB. -/
def smuxConf (cfg : KCPConf) : SmuxConfig :=
  let s0 := smuxDefaultConfig
  let s1 := { s0 with
    Version := 2
    KeepAliveIntervalSec := 10
    KeepAliveTimeoutSec := 40
    MaxFrameSize := 8192 }
  let s2 := { s1 with
    MaxReceiveBuffer := if cfg.Smuxbuf = 0 then 4194304 else cfg.Smuxbuf }
  { s2 with
    MaxStreamBuffer := if cfg.Streambuf = 0 then 2097152 else cfg.Streambuf }

/-- C7 counterexample: no KCP profile yields a 32 KiB frame size —
`smuxConf` does not consult the profile at all and always sets 8 KiB. -/
theorem smux_frame_size_never_32k :
    ¬ ∃ cfg : KCPConf, (smuxConf cfg).MaxFrameSize = 32768 := by
  rintro ⟨cfg, h⟩
  simp only [smuxConf] at h
  exact absurd h (by decide)

/-- C7 (amended): The stream multiplexer configuration produced for every
KCP profile has version 2, a 10-second keep-alive interval, a 40-second
keep-alive timeout, a frame size of 8 KiB regardless of profile, a receive
buffer defaulting to 4 MiB and a stream buffer defaulting to 2 MiB, both
buffers overridable by config. -/
theorem smux_conf_fields (cfg : KCPConf) :
    (smuxConf cfg).Version = 2 ∧
    (smuxConf cfg).KeepAliveIntervalSec = 10 ∧
    (smuxConf cfg).KeepAliveTimeoutSec = 40 ∧
    (smuxConf cfg).MaxFrameSize = 8192 ∧
    (cfg.Smuxbuf = 0 → (smuxConf cfg).MaxReceiveBuffer = 4194304) ∧
    (cfg.Smuxbuf ≠ 0 → (smuxConf cfg).MaxReceiveBuffer = cfg.Smuxbuf) ∧
    (cfg.Streambuf = 0 → (smuxConf cfg).MaxStreamBuffer = 2097152) ∧
    (cfg.Streambuf ≠ 0 → (smuxConf cfg).MaxStreamBuffer = cfg.Streambuf) := by
  refine ⟨rfl, rfl, rfl, rfl, ?_, ?_, ?_, ?_⟩ <;>
    intro h <;> simp only [smuxConf, if_pos, if_neg, h] <;> simp [h]

theorem smux_conf_fields_witness :
    (smuxConf ⟨"fast", 1, 20, 2, 1, false, true, 1024, 1024, 1350, 0, 8388608⟩).MaxReceiveBuffer = 4194304 ∧
    (smuxConf ⟨"fast", 1, 20, 2, 1, false, true, 1024, 1024, 1350, 0, 8388608⟩).MaxStreamBuffer = 8388608 :=
  ⟨(smux_conf_fields ⟨"fast", 1, 20, 2, 1, false, true, 1024, 1024, 1350, 0, 8388608⟩).2.2.2.2.1 rfl,
   (smux_conf_fields ⟨"fast", 1, 20, 2, 1, false, true, 1024, 1024, 1350, 0, 8388608⟩).2.2.2.2.2.2.2 (by decide)⟩

/-! ## License enforcement (`licensing.Enforce`)

The HTTP round-trip and the cache file are external effects, modelled as
an environment: the parsed content of the cache file (if readable), the
HTTP response (if the server is reachable, with the decoded `ok` field),
and the machine id that `computeServerID` would produce (its `/etc` file
reads are external I/O).  SHA-256 is the uninterpreted parameter `sha`.
`goTrimSpace` models `strings.TrimSpace` on ASCII whitespace. -/

/-- ASCII whitespace, as trimmed by `strings.TrimSpace`. -/
def goIsSpace (c : Char) : Bool :=
  c == ' ' || c == '\t' || c == '\n' || c == '\r'

/-- `strings.TrimSpace` (ASCII fragment). -/
def goTrimSpace (s : String) : String :=
  String.mk (((s.toList.dropWhile goIsSpace).reverse.dropWhile goIsSpace).reverse)

/-- `strings.TrimRight(s, "/")`. -/
def goTrimRightSlash (s : String) : String :=
  String.mk ((s.toList.reverse.dropWhile (fun c => c == '/')).reverse)

/-- `conf.License`. -/
structure LicenseConf where
  URL : String
  Key : String
  ServerID : String
  TimeoutSec : Int
deriving DecidableEq, Repr

/-- `licensing.cacheEntry`: the JSON cache file content. -/
structure CacheEntry where
  Binding : String
  ValidatedAt : Int
deriving DecidableEq, Repr

/-- The decoded activation response: HTTP status and the `ok` field. -/
structure ActivateResp where
  Status : Nat
  OK : Bool
deriving DecidableEq, Repr

/-- External world as `Enforce` observes it. -/
structure EnforceEnv where
  cache : Option CacheEntry
  http : Option ActivateResp
  machineID : String
deriving DecidableEq, Repr

/-- What one `Enforce` run did: whether it succeeded, whether it performed
the HTTP activation call, and the binding it wrote to the cache (if any). -/
structure EnforceTrace where
  ok : Bool
  httpCalled : Bool
  cacheWritten : Option String
deriving DecidableEq, Repr

/-- `licensing.bindingKey`: SHA-256 hex of `base|key|serverID`. -/
def bindingKey (sha : String → String) (base key serverID : String) : String :=
  sha (base ++ "|" ++ key ++ "|" ++ serverID)

/-- `licensing.isCached`: the cache file exists, parses, and its trimmed
binding equals the current binding. -/
def isCached (env : EnforceEnv) (binding : String) : Bool :=
  match env.cache with
  | none => false
  | some c => goTrimSpace c.Binding == binding

/-- The binding `Enforce` computes for the current config. -/
def bindingOf (sha : String → String) (env : EnforceEnv)
    (cfg : LicenseConf) : String :=
  bindingKey sha (goTrimRightSlash (goTrimSpace cfg.URL)) (goTrimSpace cfg.Key)
    (if goTrimSpace cfg.ServerID = "" then env.machineID
     else goTrimSpace cfg.ServerID)

/-- `licensing.Enforce` (the cache-enabled variant): empty url/key fail;
a matching cache binding succeeds without any HTTP call; otherwise POST
`/v1/activate`, succeed only on HTTP 200 with `ok=true`, and write the
cache on success. -/
def Enforce (sha : String → String) (env : EnforceEnv)
    (cfg : LicenseConf) : EnforceTrace :=
  if goTrimRightSlash (goTrimSpace cfg.URL) = "" ∨ goTrimSpace cfg.Key = "" then
    ⟨false, false, none⟩
  else if isCached env (bindingOf sha env cfg) then ⟨true, false, none⟩
  else
    match env.http with
    | none => ⟨false, true, none⟩
    | some resp =>
        if resp.Status ≠ 200 then ⟨false, true, none⟩
        else if resp.OK = false then ⟨false, true, none⟩
        else ⟨true, true, some (bindingOf sha env cfg)⟩

/-- C8: When the on-disk cache file contains a binding equal to the
SHA-256 hex digest of `url|key|serverID` for the current config, `Enforce`
succeeds without performing any HTTP activation call; otherwise it POSTs
to `{base}/v1/activate` and succeeds only on HTTP 200 with `ok=true`,
writing the cache on success. -/
theorem license_enforce (sha : String → String) (env : EnforceEnv)
    (cfg : LicenseConf)
    (hbase : goTrimRightSlash (goTrimSpace cfg.URL) ≠ "")
    (hkey : goTrimSpace cfg.Key ≠ "") :
    (isCached env (bindingOf sha env cfg) = true →
      Enforce sha env cfg = ⟨true, false, none⟩) ∧
    (isCached env (bindingOf sha env cfg) = false →
      (Enforce sha env cfg).httpCalled = true ∧
      ((Enforce sha env cfg).ok = true ↔
        ∃ r, env.http = some r ∧ r.Status = 200 ∧ r.OK = true) ∧
      (Enforce sha env cfg).cacheWritten =
        (if (Enforce sha env cfg).ok then some (bindingOf sha env cfg)
         else none)) := by
  have hcfg : ¬(goTrimRightSlash (goTrimSpace cfg.URL) = "" ∨
      goTrimSpace cfg.Key = "") := by tauto
  constructor
  · intro hc
    unfold Enforce
    rw [if_neg hcfg, if_pos hc]
  · intro hc
    unfold Enforce
    rw [if_neg hcfg, if_neg (by rw [hc]; exact Bool.false_ne_true)]
    rcases hhttp : env.http with _ | ⟨st, ok⟩
    · refine ⟨rfl, ?_, rfl⟩
      simp
    · by_cases hs : st = 200
      · subst hs
        cases ok <;> simp
      · simp [hs]

theorem license_enforce_witness :
    Enforce (fun s => s)
        ⟨some ⟨"http://x|k|sid", 0⟩, none, "m"⟩
        ⟨"http://x", "k", "sid", 6⟩ =
      ⟨true, false, none⟩ :=
  (license_enforce (fun s => s) ⟨some ⟨"http://x|k|sid", 0⟩, none, "m"⟩
      ⟨"http://x", "k", "sid", 6⟩ (by decide) (by decide)).1 (by decide)

end Paqet
